import Mathlib

/-!
Verification of the loader core of `fileconv/loaders.py`.

The development shallowly embeds the module:
* file names and buffer text are `String` / `List Char`;
* Python values that may be `None` are `Option _`; Python truthiness of an
  optional string is `pyTruthyOpt`;
* the appendix regular expression `(?i)\.EXT(?:-([^\.]+))?$` is embedded as an
  executable matcher (`matchAt` / `reSearch`);
* raising code returns `Except PyError _`; the `%` string formatting operator,
  which raises `TypeError` when the argument count mismatches the number of
  placeholders, is embedded as `pyFormat`.
-/

/-- Python truthiness of an optional string: `None` and the empty string are
falsy, every other string is truthy. -/
def pyTruthyOpt (s : Option String) : Bool :=
  match s with
  | none => false
  | some st => !(st == "")

/-- ASCII case-insensitive character comparison, as performed by a Python
regular expression compiled with the `(?i)` flag (no `re.UNICODE`). -/
def ciEqChar (a b : Char) : Bool :=
  (a == b)
  || ((a.toNat + 32 == b.toNat) && decide (65 ≤ a.toNat) && decide (a.toNat ≤ 90))
  || ((b.toNat + 32 == a.toNat) && decide (65 ≤ b.toNat) && decide (b.toNat ≤ 90))

/-- Pointwise ASCII case-insensitive equality of two character lists. -/
def ciEqList : List Char → List Char → Bool
  | [], [] => true
  | a :: as, b :: bs => ciEqChar a b && ciEqList as bs
  | _, _ => false

/-- Does `l` begin with a case-insensitive copy of the pattern `pat`? -/
def ciStart (pat l : List Char) : Bool :=
  ciEqList pat (l.take pat.length)

/-- Matcher for the part of `(?i)\.EXT(?:-([^\.]+))?$` that follows the
extension: either the end of the subject (Python `$` also matches just before
one final newline), which leaves the capture group unset, or a dash followed by
one or more non-dot characters running to the end of the subject, which are the
capture group. -/
def matchTail : List Char → Option (Option (List Char))
  | [] => some none
  | ['\n'] => some none
  | '-' :: app => if app ≠ [] ∧ '.' ∉ app then some (some app) else none
  | _ => none

/-- Attempt to match `(?i)\.EXT(?:-([^\.]+))?$` at the head of `s`.
`none` means no match here; `some g` is a match with capture group `g`. -/
def matchAt (ext s : List Char) : Option (Option (List Char)) :=
  match s with
  | [] => none
  | c :: rest =>
    if c = '.' then
      if ciStart ext rest then matchTail (rest.drop ext.length) else none
    else none

/-- Model of `re.search` for the pattern above: try every start position from the left
and return the first match. -/
def reSearch (ext : List Char) : List Char → Option (Option (List Char))
  | [] => none
  | c :: rest =>
    match matchAt ext (c :: rest) with
    | some g => some g
    | none => reSearch ext rest

/-- Core of `LoaderProto.get_ext_appendix`: the appendix of `name` for
canonical extension `ext`, or `none`.  Mirrors
`ret = re.search(cls.ext_regex, file_name); if ret and ret.group(1)`. -/
def extAppendix (ext name : List Char) : Option (List Char) :=
  match reSearch ext name with
  | some (some app) => if app.isEmpty then none else some app
  | _ => none

/-- Embedding of `LoaderProto.get_ext_appendix(file_name)`: `None` when no file name is
given (Python truthiness makes the empty string count as no name). -/
def LoaderProto.get_ext_appendix (ext : String) (file_name : Option String) : Option String :=
  match file_name with
  | none => none
  | some s =>
    if s == "" then none
    else (extAppendix ext.toList s.toList).map String.mk

/-- Model of `os.path.splitext` (POSIX, Python 2 semantics): split off the extension at
the last dot of the base name, unless every character of the base name before
that dot is itself a dot. -/
def splitext (p : List Char) : List Char × List Char :=
  let base := (p.reverse.takeWhile (fun c => !(c == '/'))).reverse
  let extRev := base.reverse.takeWhile (fun c => !(c == '.'))
  if extRev.length = base.length then (p, [])
  else
    let stem := base.take (base.length - extRev.length - 1)
    if stem.all (fun c => c == '.') then (p, [])
    else (p.take (p.length - extRev.length - 1), '.' :: extRev.reverse)

/-- Model of `os.path.splitext` on strings. -/
def splitextStr (p : String) : String × String :=
  let r := splitext p.toList
  (String.mk r.1, String.mk r.2)

/-- Modelled from the spec: `path_to_dict` lives in `sublime_lib.path`, which
is not among the provided sources.  The spec (§4.2) describes the check using
it as "File extension (case-sensitive path suffix) equals
'.' + canonicalExtension"; we model `path_to_dict(file_path).ext` as the
extension of the path in the sense of `os.path.splitext`. -/
def path_to_dict_ext (p : String) : String :=
  (splitextStr p).2

/-- The external editor buffer (Sublime view), reduced to the interface the
loaders use (spec §6): an optional file name, the declared base scope, and the
buffer text line by line (lines without their trailing newline, as delivered by
`coorded_substr`). -/
structure View where
  file_name : Option String
  base_scope : String
  lines : List String

/-- The external editor window; the loaders only pass it around. -/
inductive Window
  | mk

/-- Embedding of `file_path or view and view.file_name()` — the path resolution shared by
`file_is_valid`, `get_new_file_ext` and `is_valid`.  If the explicit argument
is truthy it wins; otherwise `view and view.file_name()` yields `None` when the
view is `None`, else the file name of the view. -/
def resolvePath (file_path : Option String) (view : Option View) : Option String :=
  if pyTruthyOpt file_path then file_path
  else
    match view with
    | none => none
    | some v => v.file_name

/-- The Python value of `cls.scope is not None and view and base_scope(view) ==
cls.scope`: `False` when the class has no scope, `None` when it has one but the
view is `None` (the conjunction returns the falsy view), else the boolean scope
comparison.  `base_scope` is the buffer accessor of spec §6 ("declared syntax
scope"), modelled as the `base_scope` field of the view. -/
def scopeSniff (scope : Option String) (view : Option View) : Option Bool :=
  match scope with
  | none => some false
  | some sc =>
    match view with
    | none => none
    | some v => some (v.base_scope == sc)

/-- Python `or` on values that are `None` or booleans: the left operand is
returned when truthy, otherwise the right operand. -/
def pyOr (x y : Option Bool) : Option Bool :=
  if x = some true then some true else y

/-- Embedding of `LoaderProto.file_is_valid(view, file_path)` for a loader class with
canonical extension `ext` and optional scope `scope`.  Returns the Python value
of the `or` chain; `none` models Python `None`. -/
def LoaderProto.file_is_valid (ext : String) (scope : Option String)
    (view : Option View) (file_path0 : Option String) : Option Bool :=
  match resolvePath file_path0 view with
  | none => none
  | some p =>
    if p = "" then none
    else
      pyOr (pyOr (some (LoaderProto.get_ext_appendix ext (some p)).isSome)
                 (some (path_to_dict_ext p == "." ++ ext)))
           (scopeSniff scope view)

/-- Embedding of `LoaderProto.get_new_file_ext(view, file_path)`. -/
def LoaderProto.get_new_file_ext (ext : String) (scope : Option String)
    (view : Option View) (file_path0 : Option String) : Option String × Bool :=
  match resolvePath file_path0 view with
  | none => (none, false)
  | some p =>
    if p = "" then (none, false)
    else
      -- `if appendix:` — `get_ext_appendix` yields `None` or a non-empty string
      match LoaderProto.get_ext_appendix ext (some p) with
      | some app => (some ("." ++ app), false)
      | none =>
        let e := (splitextStr p).2
        if ¬(e = "." ++ ext) ∧ LoaderProto.file_is_valid ext scope view (some p) = some true
        then (some e, true)
        else (none, false)

/-- The literal marker `PlistLoader.DOCTYPE`. -/
def plistDOCTYPE : String := "<!DOCTYPE plist"

/-- Model of `coorded_substr(view, (i, 0), (i, len(DOCTYPE)))` — the buffer accessor of
spec §6 ("read a half-open line/column range as text"), modelled as the first
`len(DOCTYPE)` characters of line `i` of the view. -/
def coordedLine (v : View) (i : Nat) : String :=
  String.mk ((v.lines.getD i "").toList.take plistDOCTYPE.length)

/-- The view branch of `PlistLoader.file_is_valid`: `for i in range(2)` tests
lines 0 and 1 of the buffer against the DOCTYPE marker. -/
def plistViewDoctype (v : View) : Bool :=
  (coordedLine v 0 == plistDOCTYPE) || (coordedLine v 1 == plistDOCTYPE)

/-- Python `str.startswith`, structurally on character lists. -/
def startsWithL : List Char → List Char → Bool
  | _, [] => true
  | [], _ :: _ => false
  | c :: cs, p :: ps => (c == p) && startsWithL cs ps

/-- The file branch of `PlistLoader.file_is_valid`, translated literally: the
loop increments `i` and `break`s as soon as `i == 2`, before testing the
second line, so only the first line of the file is ever examined. -/
def plistFileDoctype (ls : List String) : Bool :=
  match ls with
  | [] => false
  | l0 :: _ => startsWithL l0.toList plistDOCTYPE.toList

/-- Python exceptions that escape the embedded functions. -/
inductive PyError
  | notImplementedError : String → PyError
  | typeError : PyError
  | attributeError : PyError
  | ioError : PyError
  deriving DecidableEq, Repr

/-- Embedding of `PlistLoader.file_is_valid(view, file_path)`.  The file system is a
parameter `fs`: `fs p` is the list of lines of file `p`, or `none` when opening
it raises `IOError` — the code has no handler, so that error propagates. -/
def PlistLoader.file_is_valid (fs : String → Option (List String))
    (view : Option View) (file_path0 : Option String) : Except PyError (Option Bool) :=
  match resolvePath file_path0 view with
  | none => .ok none
  | some p =>
    if p = "" then .ok none
    else if (LoaderProto.get_ext_appendix "plist" (some p)).isSome
            || ((splitextStr p).2 == ".plist") then .ok (some true)
    else
      match view with
      | some v => .ok (some (plistViewDoctype v))
      | none =>
        match fs p with
        | none => .error .ioError
        | some ls => .ok (some (plistFileDoctype ls))

/-- Characters stripped by Python `str.strip()`. -/
def isSpacePy (c : Char) : Bool :=
  (c == ' ') || (c == '\t') || (c == '\n') || (c == '\r') || (c == '\x0b') || (c == '\x0c')

/-- Python `str.strip()` on a character list. -/
def strip2 (l : List Char) : List Char :=
  ((l.dropWhile isSpacePy).reverse.dropWhile isSpacePy).reverse

/-- Python `string.split("\n")`: split at every newline, keeping empty pieces. -/
def splitNl : List Char → List (List Char)
  | [] => [[]]
  | c :: rest =>
    if c = '\n' then [] :: splitNl rest
    else
      match splitNl rest with
      | [] => [[c]]
      | p :: ps => (c :: p) :: ps

/-- Python `" ".join(pieces)`. -/
def joinSp : List (List Char) → List Char
  | [] => []
  | [p] => p
  | p :: ps => p ++ ' ' :: joinSp ps

/-- Embedding of `_join_multiline(string)`: each line stripped, joined by single spaces. -/
def join_multiline (s : List Char) : List Char :=
  joinSp ((splitNl s).map strip2)

/-- Python `%` formatting restricted to `%s` placeholders, with its arity
errors: too few arguments for the placeholders, or arguments left over at the
end of the template, raise `TypeError` (modelled as `none`). -/
def pyFormat : List Char → List String → Option String
  | '%' :: 's' :: rest, args =>
    match args with
    | [] => none
    | a :: args2 => (pyFormat rest args2).map (fun t => a ++ t)
  | c :: rest, args => (pyFormat rest args).map (fun t => c.toString ++ t)
  | [], args => if args.isEmpty then some "" else none

/-- What a `parse` call leaves behind: the returned value (`none` models a
Python `return` of `None`, the "absent result") and the diagnostic lines
written to the output sink, in order. -/
structure ParseOut (α : Type) where
  result : Option α
  output : List String
  deriving DecidableEq, Repr

/-- Outcome of `open(self.file_path)` plus `json.load(f)`: a decoded value, a
`ValueError` with message `str(e)`, or an `IOError` with message `str(e)`. -/
inductive JsonRead (α : Type)
  | ok : α → JsonRead α
  | valueError : String → JsonRead α
  | ioError : String → JsonRead α

/-- Outcome of `open` plus `yaml.safe_load(f)`. -/
inductive YamlRead (α : Type)
  | ok : α → YamlRead α
  | yamlError : String → YamlRead α
  | ioError : String → YamlRead α

/-- Outcome of `plistlib.readPlist(self.file_path)`: a decoded value, an
`ExpatError` carrying `e.code`, `e.lineno` and `e.offset`, or any other
exception (`BaseException`) with message `str(e)`. -/
inductive PlistRead (α : Type)
  | ok : α → PlistRead α
  | expatError : Nat → Nat → Nat → PlistRead α
  | otherError : String → PlistRead α

/-- The template `PlistLoader.debug_base`: note the four `%s` placeholders. -/
def plistDebugBase : String :=
  "Error parsing Property List \"%s\": %s, line %s, column %s"

/-- Embedding of `JSONLoader.parse`.  Here `JSONLoader.debug_base % (path, msg)` has exactly two
placeholders for its two arguments, so `%` is plain interpolation here. -/
def JSONLoader.parse {α : Type} (fp : String) (r : JsonRead α) : Except PyError (ParseOut α) :=
  match r with
  | .ok v => .ok ⟨some v, []⟩
  | .valueError m => .ok ⟨none, ["Error parsing JSON \"" ++ fp ++ "\": " ++ m]⟩
  | .ioError m => .ok ⟨none, ["Error opening \"" ++ fp ++ "\": " ++ m]⟩

/-- Embedding of `YAMLLoader.parse`.  Here `YAMLLoader.debug_base % x` has a single placeholder,
so `%` is plain interpolation of `_join_multiline(str(e))`. -/
def YAMLLoader.parse {α : Type} (fp : String) (r : YamlRead α) : Except PyError (ParseOut α) :=
  match r with
  | .ok v => .ok ⟨some v, []⟩
  | .yamlError m =>
    .ok ⟨none, [String.mk ("Error parsing YAML: ".toList ++ join_multiline m.toList)]⟩
  | .ioError m => .ok ⟨none, ["Error opening \"" ++ fp ++ "\": " ++ m]⟩

/-- Embedding of `PlistLoader.parse`.  Here `errorString` is the expat `ErrorString` table
(external C library).  Both handlers format `debug_base` with `pyFormat`; the
`BaseException` handler supplies two values for four placeholders. -/
def PlistLoader.parse {α : Type} (errorString : Nat → String) (fp : String)
    (r : PlistRead α) : Except PyError (ParseOut α) :=
  match r with
  | .ok v => .ok ⟨some v, []⟩
  | .expatError code lineno offset =>
    match pyFormat plistDebugBase.toList [fp, errorString code, toString lineno, toString offset] with
    | some line => .ok ⟨none, [line]⟩
    | none => .error .typeError
  | .otherError m =>
    match pyFormat plistDebugBase.toList [fp, m] with
    | some line => .ok ⟨none, [line]⟩
    | none => .error .typeError

/-- The method `load` wraps `parse`: after validation it writes the informational trace
line and then delegates, so the sink sees the trace line followed by whatever
`parse` writes; an exception in `parse` propagates. -/
def withTrace {α : Type} (name fp : String) (res : Except PyError (ParseOut α)) :
    Except PyError (ParseOut α) :=
  match res with
  | .ok out => .ok ⟨out.result, ("Parsing " ++ name ++ "... (" ++ fp ++ ")") :: out.output⟩
  | .error e => .error e

/-- Embedding of `JSONLoader.load` for an instance bound to view `view` and path `fp`:
`if not self.is_valid(): raise NotImplementedError("Not a %s file." % name)`,
then the trace line, then `parse`. -/
def JSONLoader.load {α : Type} (view : Option View) (fp : String) (r : JsonRead α) :
    Except PyError (ParseOut α) :=
  if LoaderProto.file_is_valid "json" (some "source.json") view (some fp) = some true then
    withTrace "JSON" fp (JSONLoader.parse fp r)
  else .error (.notImplementedError "Not a JSON file.")

/-- Embedding of `YAMLLoader.load`, as `JSONLoader.load`. -/
def YAMLLoader.load {α : Type} (view : Option View) (fp : String) (r : YamlRead α) :
    Except PyError (ParseOut α) :=
  if LoaderProto.file_is_valid "yaml" (some "source.yaml") view (some fp) = some true then
    withTrace "YAML" fp (YAMLLoader.parse fp r)
  else .error (.notImplementedError "Not a YAML file.")

/-- Embedding of `PlistLoader.load`: the validity check is the plist override, whose
exceptions propagate out of `load` as well. -/
def PlistLoader.load {α : Type} (fs : String → Option (List String))
    (errorString : Nat → String) (view : Option View) (fp : String) (r : PlistRead α) :
    Except PyError (ParseOut α) :=
  match PlistLoader.file_is_valid fs view (some fp) with
  | .error e => .error e
  | .ok valid =>
    if valid = some true then withTrace "Property List" fp (PlistLoader.parse errorString fp r)
    else .error (.notImplementedError "Not a Property List file.")

/-- A constructed loader instance: the bindings `__init__` mirrors to `self`
that the later methods read (the output panel is an external collaborator). -/
structure LoaderInstance where
  view : Option View
  file_path : String

/-- Embedding of `self.file_path = file_path or view.file_name()`: when the argument is
falsy, `view.file_name()` raises `AttributeError` if the view is `None`. -/
def resolveInitPath (view : Option View) (file_path0 : Option String) :
    Except PyError (Option String) :=
  if pyTruthyOpt file_path0 then .ok file_path0
  else
    match view with
    | none => .error .attributeError
    | some v => .ok v.file_name

/-- Embedding of `LoaderProto.__init__(window, view, file_path, output)` translated line by
line.  `window or view.window()` raises `AttributeError` when both are absent;
then `self.file_path = file_path or view.file_name()` (see `resolveInitPath`);
then `os.path.split(self.file_path)` raises `AttributeError` when
`self.file_path` is `None` (the output panel it then builds is an external
collaborator and is not modelled). -/
def LoaderProto.init (window : Option Window) (view : Option View)
    (file_path0 : Option String) : Except PyError LoaderInstance :=
  if window.isNone && view.isNone then .error .attributeError
  else
    match resolveInitPath view file_path0 with
    | .error e => .error e
    | .ok none => .error .attributeError
    | .ok (some p) => .ok ⟨view, p⟩

/-- Embedding of `self.is_valid()` of a constructed instance of a scope-based loader. -/
def LoaderInstance.is_valid (ext : String) (scope : Option String)
    (inst : LoaderInstance) : Option Bool :=
  LoaderProto.file_is_valid ext scope inst.view (some inst.file_path)

/-- Did the construction raise? -/
def excIsError {ε α : Type} : Except ε α → Bool
  | .error _ => true
  | .ok _ => false

/-- A concrete file system for the plist claims: the file `x.weird` is
readable and carries the plist DOCTYPE on its second line. -/
def plistTwoLineFs : String → Option (List String) :=
  fun p =>
    if p = "x.weird" then
      some ["<?xml version=\"1.0\" encoding=\"UTF-8\"?>",
            "<!DOCTYPE plist PUBLIC \"-//Apple//DTD PLIST 1.0//EN\">"]
    else none

example : extAppendix "json".toList "config.json-local".toList = some "local".toList := by decide
example : extAppendix "json".toList "config.JSON-Draft".toList = some "Draft".toList := by decide
example : extAppendix "json".toList "config.json".toList = none := by decide
example : extAppendix "json".toList "config.json-".toList = none := by decide
example : extAppendix "json".toList "config.jsonx".toList = none := by decide
example : extAppendix "json".toList "a.json-a.json-c".toList = some "c".toList := by decide
example : splitextStr "/x/a.txt" = ("/x/a", ".txt") := by decide
example : splitextStr ".bashrc" = (".bashrc", "") := by decide
example : splitextStr "dir.x/file" = ("dir.x/file", "") := by decide
example : splitextStr "a..b" = ("a.", ".b") := by decide

/-- C1: `load` raises the "Not a <Name> file." error exactly when validation
rejects, and on acceptance writes the "Parsing <Name>... (<path>)" trace line
and returns what `parse` produced, with parse failures turned into diagnostics
— as shown here for the JSON loader.  The final conjunct exhibits the
divergence: for the Property List loader a non-Expat parse failure is NOT
swallowed; the `%` formatting inside its generic handler supplies two values to
a four-placeholder template and the resulting `TypeError` escapes `load`. -/
theorem c1_load_contract_and_plist_divergence :
    (@JSONLoader.load Nat none "/p/a.json"
        (JsonRead.valueError "Expecting property name: line 1 column 9 (char 8)") =
      .ok ⟨none, ["Parsing JSON... (/p/a.json)",
                  "Error parsing JSON \"/p/a.json\": Expecting property name: line 1 column 9 (char 8)"]⟩)
    ∧ (@JSONLoader.load Nat none "/p/a.json" (JsonRead.ok 7) =
        .ok ⟨some 7, ["Parsing JSON... (/p/a.json)"]⟩)
    ∧ (@JSONLoader.load Nat none "/p/a.txt" (JsonRead.ok 7) =
        .error (.notImplementedError "Not a JSON file."))
    ∧ (@PlistLoader.load Nat (fun _ => none) (fun _ => "") none "/p/x.plist"
        (PlistRead.otherError "invalid literal for int with base 10") =
        .error .typeError) :=
  ⟨rfl, rfl, rfl, rfl⟩

/-- C6: for the Property List format with no appendix, no matching extension
and no buffer, the code reads the file but — against the claim and its own
comment — tests only the FIRST line for the DOCTYPE marker: a file carrying
the marker on line 2 is rejected.  An unreadable file raises `IOError` instead
of counting as not valid.  The last conjunct shows the view branch of the same
method accepting the identical two lines, exposing the asymmetry. -/
theorem c6_plist_file_branch_checks_one_line :
    (PlistLoader.file_is_valid plistTwoLineFs none (some "x.weird") = .ok (some false))
    ∧ (PlistLoader.file_is_valid (fun _ => none) none (some "x.weird") = .error .ioError)
    ∧ (plistFileDoctype ["<?xml version=\"1.0\" encoding=\"UTF-8\"?>",
          "<!DOCTYPE plist PUBLIC \"-//Apple//DTD PLIST 1.0//EN\">"] = false)
    ∧ (plistViewDoctype ⟨none, "text.xml",
          ["<?xml version=\"1.0\" encoding=\"UTF-8\"?>",
           "<!DOCTYPE plist PUBLIC \"-//Apple//DTD PLIST 1.0//EN\">"]⟩ = true) :=
  ⟨rfl, rfl, rfl, rfl⟩

/-- C9: `PlistLoader.parse` reports Expat errors with the translated error
string and the error position, and returns the decoded value on success; but
on any OTHER parse failure the claimed generic diagnostic is never written:
formatting the four-placeholder `debug_base` with only two values raises
`TypeError` inside the handler, so `parse` raises instead of returning no
value. -/
theorem c9_plist_parse_generic_handler_raises :
    (@PlistLoader.parse Nat (fun _ => "") "/p/x.plist"
        (PlistRead.otherError "invalid literal for int with base 10") = .error .typeError)
    ∧ (pyFormat plistDebugBase.toList ["/p/x.plist", "invalid literal for int with base 10"] = none)
    ∧ (@PlistLoader.parse Nat (fun c => if c = 4 then "not well-formed (invalid token)" else "expat error")
        "/p/x.plist" (PlistRead.expatError 4 1 10) =
        .ok ⟨none, ["Error parsing Property List \"/p/x.plist\": not well-formed (invalid token), line 1, column 10"]⟩)
    ∧ (@PlistLoader.parse Nat (fun _ => "") "/p/x.plist" (PlistRead.ok 5) = .ok ⟨some 5, []⟩) :=
  ⟨rfl, rfl, rfl, rfl⟩

/-- C3, counterexample: `file_is_valid` returns `None` in situations the claim
rules out.  With the JSON loader and the file path `a.txt` present but no
buffer, the result is `None` although a file path is available; and with a
buffer present that has no file path, the result is again `None` — not the
determined boolean the claim promises for a scope mismatch. -/
theorem c3_counterexample :
    (LoaderProto.file_is_valid "json" (some "source.json") none (some "a.txt") = none)
    ∧ (LoaderProto.file_is_valid "json" (some "source.json")
        (some ⟨none, "source.python", []⟩) none = none)
    ∧ (∀ b : Bool, LoaderProto.file_is_valid "json" (some "source.json")
        (some ⟨none, "source.python", []⟩) none ≠ some b) :=
  ⟨rfl, rfl, by decide⟩

theorem resolve_some {p : String} (hp : p ≠ "") (view : Option View) :
    resolvePath (some p) view = some p := by
  have : pyTruthyOpt (some p) = true := by
    simp [pyTruthyOpt, hp]
  simp [resolvePath, this]

theorem splitNl_no_nl {s : List Char} : ∀ p ∈ splitNl s, '\n' ∉ p := by
  induction s with
  | nil =>
    intro p hp
    simp [splitNl] at hp
    simp [hp]
  | cons c rest ih =>
    intro p hp
    unfold splitNl at hp
    by_cases hc : c = '\n'
    · rw [if_pos hc] at hp
      rcases List.mem_cons.mp hp with rfl | hp
      · simp
      · exact ih p hp
    · rw [if_neg hc] at hp
      cases hsp : splitNl rest with
      | nil =>
        rw [hsp] at hp
        simp at hp
        rw [hp]
        intro hm
        rcases List.mem_cons.mp hm with h1 | h1
        · exact hc h1.symm
        · simp at h1
      | cons p0 ps =>
        rw [hsp] at hp
        rcases List.mem_cons.mp hp with rfl | hp
        · intro hmem
          rcases List.mem_cons.mp hmem with h1 | h1
          · exact hc h1.symm
          · exact ih p0 (by rw [hsp]; exact List.mem_cons_self p0 ps) h1
        · exact ih p (by rw [hsp]; exact List.mem_cons_of_mem p0 hp)

theorem mem_strip2 {c : Char} {l : List Char} (h : c ∈ strip2 l) : c ∈ l := by
  unfold strip2 at h
  rw [List.mem_reverse] at h
  have h2 := (List.dropWhile_suffix isSpacePy).subset h
  rw [List.mem_reverse] at h2
  exact (List.dropWhile_suffix isSpacePy).subset h2

theorem joinSp_no_nl {ps : List (List Char)} (h : ∀ p ∈ ps, '\n' ∉ p) :
    '\n' ∉ joinSp ps := by
  induction ps with
  | nil => simp [joinSp]
  | cons q qs ih =>
    cases qs with
    | nil =>
      show '\n' ∉ joinSp [q]
      exact h q (by simp)
    | cons r rs =>
      show '\n' ∉ q ++ ' ' :: joinSp (r :: rs)
      intro hmem
      rcases List.mem_append.mp hmem with hm | hm
      · exact h q (by simp) hm
      · rcases List.mem_cons.mp hm with hm | hm
        · exact absurd hm (by decide)
        · exact ih (fun p hp => h p (List.mem_cons_of_mem q hp)) hm

theorem join_multiline_no_nl (s : List Char) : '\n' ∉ join_multiline s := by
  unfold join_multiline
  apply joinSp_no_nl
  intro p hp
  rcases List.mem_map.mp hp with ⟨q, hq, rfl⟩
  intro hmem
  exact splitNl_no_nl q hq (mem_strip2 hmem)

theorem joinSp_infix {p : List Char} {ps : List (List Char)} (h : p ∈ ps) :
    ∃ u w, joinSp ps = u ++ p ++ w := by
  induction ps with
  | nil => simp at h
  | cons q qs ih =>
    cases qs with
    | nil =>
      rcases List.mem_cons.mp h with rfl | h2
      · exact ⟨[], [], by simp [joinSp]⟩
      · simp at h2
    | cons r rs =>
      rcases List.mem_cons.mp h with rfl | h2
      · exact ⟨[], ' ' :: joinSp (r :: rs), by simp [joinSp]⟩
      · obtain ⟨u, w, hw⟩ := ih h2
        refine ⟨q ++ ' ' :: u, w, ?_⟩
        show q ++ ' ' :: joinSp (r :: rs) = (q ++ ' ' :: u) ++ p ++ w
        rw [hw]
        simp

theorem join_multiline_infix {p s : List Char} (h : p ∈ splitNl s) :
    ∃ u w, join_multiline s = u ++ strip2 p ++ w := by
  unfold join_multiline
  exact joinSp_infix (List.mem_map_of_mem strip2 h)

theorem ciEqList_length {a b : List Char} (h : ciEqList a b = true) : a.length = b.length := by
  induction a generalizing b with
  | nil => cases b with
    | nil => rfl
    | cons x xs => simp [ciEqList] at h
  | cons x xs ih =>
    cases b with
    | nil => simp [ciEqList] at h
    | cons y ys =>
      simp only [ciEqList, Bool.and_eq_true] at h
      simp [ih h.2]

theorem ciEqChar_dot {a : Char} (h : ciEqChar a '.' = true) : a = '.' := by
  simp only [ciEqChar, Bool.or_eq_true, Bool.and_eq_true, beq_iff_eq, decide_eq_true_eq] at h
  rcases h with (h | h) | h
  · exact h
  · exfalso
    have hd : ('.' : Char).toNat = 46 := by decide
    omega
  · exfalso
    have hd : ('.' : Char).toNat = 46 := by decide
    omega

theorem ciEqList_not_dot {ext E : List Char} (h : ciEqList ext E = true)
    (hd : '.' ∉ ext) : '.' ∉ E := by
  induction ext generalizing E with
  | nil =>
    cases E with
    | nil => simp
    | cons y ys => simp [ciEqList] at h
  | cons x xs ih =>
    cases E with
    | nil => simp [ciEqList] at h
    | cons y ys =>
      simp only [ciEqList, Bool.and_eq_true] at h
      intro hmem
      rcases List.mem_cons.mp hmem with rfl | hmem
      · exact hd (by simp [ciEqChar_dot h.1])
      · exact ih h.2 (fun hx => hd (List.mem_cons_of_mem _ hx)) hmem

theorem matchAt_cons (ext : List Char) (c : Char) (rest : List Char) :
    matchAt ext (c :: rest) =
      if c = '.' then
        if ciStart ext rest = true then matchTail (rest.drop ext.length) else none
      else none := rfl

theorem matchTail_dash (app : List Char) :
    matchTail ('-' :: app) =
      if app ≠ [] ∧ '.' ∉ app then some (some app) else none := rfl

theorem matchTail_some_some {t app : List Char} (h : matchTail t = some (some app)) :
    t = '-' :: app ∧ app ≠ [] ∧ '.' ∉ app := by
  unfold matchTail at h
  split at h
  · exact absurd h (by simp)
  · exact absurd h (by simp)
  · rename_i app0
    split at h
    · rename_i hg
      injection h with h
      injection h with h
      subst h
      exact ⟨rfl, hg.1, hg.2⟩
    · exact absurd h (by simp)
  · exact absurd h (by simp)

theorem matchTail_some_none {t : List Char} (h : matchTail t = some none) :
    t = [] ∨ t = ['\n'] := by
  unfold matchTail at h
  split at h
  · exact Or.inl rfl
  · exact Or.inr rfl
  · split at h
    · exact absurd h (by simp)
    · exact absurd h (by simp)
  · exact absurd h (by simp)

theorem matchAt_some_some {ext s app : List Char} (h : matchAt ext s = some (some app)) :
    ∃ E, s = '.' :: (E ++ '-' :: app) ∧ ciEqList ext E = true ∧ app ≠ [] ∧ '.' ∉ app := by
  unfold matchAt at h
  split at h
  · exact absurd h (by simp)
  · rename_i c rest
    split at h
    · rename_i hc
      subst hc
      split at h
      · rename_i hci
        obtain ⟨ht, hne, hnd⟩ := matchTail_some_some h
        refine ⟨rest.take ext.length, ?_, ?_, hne, hnd⟩
        · have hsplit : rest = rest.take ext.length ++ rest.drop ext.length :=
            (List.take_append_drop _ _).symm
          rw [ht] at hsplit
          conv_lhs => rw [hsplit]
        · exact hci
      · exact absurd h (by simp)
    · exact absurd h (by simp)

theorem matchAt_some {ext s : List Char} {g : Option (List Char)}
    (h : matchAt ext s = some g) (hd : '.' ∉ ext) :
    ∃ u, s = '.' :: u ∧ '.' ∉ u := by
  unfold matchAt at h
  split at h
  · exact absurd h (by simp)
  · rename_i c rest
    split at h
    · rename_i hc
      subst hc
      split at h
      · rename_i hci
        have hciE : ciEqList ext (rest.take ext.length) = true := hci
        have hE : '.' ∉ rest.take ext.length := ciEqList_not_dot hciE hd
        refine ⟨rest, rfl, ?_⟩
        have hsplit : rest = rest.take ext.length ++ rest.drop ext.length :=
          (List.take_append_drop _ _).symm
        cases g with
        | none =>
          rcases matchTail_some_none h with ht | ht
          · intro hmem
            rw [hsplit, ht] at hmem
            simp at hmem
            exact hE hmem
          · intro hmem
            rw [hsplit, ht] at hmem
            rcases List.mem_append.mp hmem with hm | hm
            · exact hE hm
            · simp at hm
        | some app =>
          obtain ⟨ht, _, hnd⟩ := matchTail_some_some h
          intro hmem
          rw [hsplit, ht] at hmem
          rcases List.mem_append.mp hmem with hm | hm
          · exact hE hm
          · rcases List.mem_cons.mp hm with hm | hm
            · exact absurd hm.symm (by decide)
            · exact hnd hm
      · exact absurd h (by simp)
    · exact absurd h (by simp)

theorem reSearch_sound {ext l app : List Char} (h : reSearch ext l = some (some app)) :
    ∃ pre E, l = pre ++ '.' :: (E ++ '-' :: app) ∧ ciEqList ext E = true ∧
      app ≠ [] ∧ '.' ∉ app := by
  induction l with
  | nil => simp [reSearch] at h
  | cons c rest ih =>
    unfold reSearch at h
    split at h
    · rename_i g hm
      injection h with h
      subst h
      obtain ⟨E, hs, hci, hne, hnd⟩ := matchAt_some_some hm
      exact ⟨[], E, by simp [hs], hci, hne, hnd⟩
    · obtain ⟨pre, E, hs, hci, hne, hnd⟩ := ih h
      exact ⟨c :: pre, E, by simp [hs], hci, hne, hnd⟩

theorem reSearch_complete {ext : List Char} (hd : '.' ∉ ext) :
    ∀ (pre E app : List Char), ciEqList ext E = true → app ≠ [] → '.' ∉ app →
      reSearch ext (pre ++ '.' :: (E ++ '-' :: app)) = some (some app) := by
  intro pre
  induction pre with
  | nil =>
    intro E app hci hne hnd
    have hlen : ext.length = E.length := ciEqList_length hci
    have htake : (E ++ '-' :: app).take ext.length = E := by
      rw [hlen]
      exact List.take_left E ('-' :: app)
    have hdrop : (E ++ '-' :: app).drop ext.length = '-' :: app := by
      rw [hlen]
      exact List.drop_left E ('-' :: app)
    have hci2 : ciStart ext (E ++ '-' :: app) = true := by
      unfold ciStart
      rw [htake]
      exact hci
    have hm : matchAt ext ('.' :: (E ++ '-' :: app)) = some (some app) := by
      rw [matchAt_cons, if_pos rfl, if_pos hci2, hdrop, matchTail_dash, if_pos ⟨hne, hnd⟩]
    simp only [List.nil_append]
    unfold reSearch
    rw [hm]
  | cons c pre2 ih =>
    intro E app hci hne hnd
    have hrec := ih E app hci hne hnd
    have hfail : matchAt ext (c :: (pre2 ++ '.' :: (E ++ '-' :: app))) = none := by
      cases hm : matchAt ext (c :: (pre2 ++ '.' :: (E ++ '-' :: app))) with
      | none => rfl
      | some g =>
        exfalso
        obtain ⟨u, hu, hnu⟩ := matchAt_some hm hd
        injection hu with h1 h2
        subst h2
        exact hnu (by simp)
    simp only [List.cons_append]
    unfold reSearch
    rw [hfail, hrec]

/-- C4: `get_ext_appendix` returns exactly the trailing captured appendix for
file names ending in dot, the canonical extension (case-insensitively), a
dash and non-empty trailing non-dot characters, anchored at the end; in every
other case — no appendix, extension mismatch, no file name — it returns
`None`. -/
theorem c4_get_ext_appendix (ext : String) (hd : '.' ∉ ext.toList) :
    (∀ name app : List Char,
      extAppendix ext.toList name = some app ↔
        ∃ pre E, name = pre ++ '.' :: (E ++ '-' :: app) ∧ ciEqList ext.toList E = true ∧
          app ≠ [] ∧ '.' ∉ app)
    ∧ LoaderProto.get_ext_appendix ext none = none
    ∧ LoaderProto.get_ext_appendix ext (some "") = none
    ∧ (∀ s : String, s ≠ "" →
        LoaderProto.get_ext_appendix ext (some s) = (extAppendix ext.toList s.toList).map String.mk) := by
  refine ⟨?_, rfl, rfl, ?_⟩
  · intro name app
    constructor
    · intro h
      unfold extAppendix at h
      split at h
      · rename_i app0 heq
        split at h
        · exact absurd h (by simp)
        · injection h with h
          subst h
          exact reSearch_sound heq
      · exact absurd h (by simp)
    · rintro ⟨pre, E, rfl, hci, hne, hnd⟩
      have hr := reSearch_complete hd pre E app hci hne hnd
      unfold extAppendix
      rw [hr]
      simp [List.isEmpty_iff, hne]
  · intro s hs
    unfold LoaderProto.get_ext_appendix
    simp [hs]

/-- Witness for C4 at the extension `json` and the name `config.json-local`. -/
theorem c4_witness :
    ('.' ∉ "json".toList)
    ∧ (∃ pre E, "config.json-local".toList = pre ++ '.' :: (E ++ '-' :: "local".toList) ∧
        ciEqList "json".toList E = true ∧ "local".toList ≠ [] ∧ '.' ∉ "local".toList) :=
  ⟨by decide,
   ((c4_get_ext_appendix "json" (by decide)).1 "config.json-local".toList "local".toList).mp
     (by decide)⟩

/-- C7: JSON `parse` returns the decoded value on success; on a decoder
`ValueError` it writes exactly one diagnostic line embedding the file path and
the decoder message and returns no value; on `IOError` it writes the generic
"Error opening" line and returns no value; and no outcome makes it raise. -/
theorem c7_json_parse (α : Type) (fp m : String) (v : α) :
    (JSONLoader.parse fp (JsonRead.ok v) = .ok ⟨some v, []⟩)
    ∧ (∃ line, JSONLoader.parse fp (JsonRead.valueError m : JsonRead α) = .ok ⟨none, [line]⟩ ∧
        (∃ u w, line.toList = u ++ fp.toList ++ w) ∧
        (∃ u w, line.toList = u ++ m.toList ++ w))
    ∧ (JSONLoader.parse fp (JsonRead.ioError m : JsonRead α) =
        .ok ⟨none, ["Error opening \"" ++ fp ++ "\": " ++ m]⟩)
    ∧ (∀ r : JsonRead α, ∃ out, JSONLoader.parse fp r = .ok out) := by
  refine ⟨rfl, ?_, rfl, ?_⟩
  · refine ⟨"Error parsing JSON \"" ++ fp ++ "\": " ++ m, rfl, ?_, ?_⟩
    · refine ⟨"Error parsing JSON \"".toList, "\": ".toList ++ m.toList, ?_⟩
      simp [String.toList, String.data_append]
    · refine ⟨("Error parsing JSON \"" ++ fp ++ "\": ").toList, [], ?_⟩
      simp [String.toList, String.data_append]
  · intro r
    cases r with
    | ok v2 => exact ⟨_, rfl⟩
    | valueError m2 => exact ⟨_, rfl⟩
    | ioError m2 => exact ⟨_, rfl⟩

/-- C8: on a `YAMLError` the YAML loader writes the single line obtained by
collapsing the possibly multi-line parser message — each line stripped of
surrounding whitespace and joined by single spaces — so the written line holds
no newline, and the stripped content of every line of the message (file, line
and column included) is still an infix of it; on success `parse` returns the
decoded value. -/
theorem c8_yaml_collapse (α : Type) (fp m : String) (v : α) :
    (YAMLLoader.parse fp (YamlRead.ok v) = .ok ⟨some v, []⟩)
    ∧ (YAMLLoader.parse fp (YamlRead.yamlError m : YamlRead α) =
        .ok ⟨none, [String.mk ("Error parsing YAML: ".toList ++ join_multiline m.toList)]⟩)
    ∧ ('\n' ∉ ("Error parsing YAML: ".toList ++ join_multiline m.toList))
    ∧ (∀ p, p ∈ splitNl m.toList → ∃ u w,
        ("Error parsing YAML: ".toList ++ join_multiline m.toList) = u ++ strip2 p ++ w)
    ∧ (YAMLLoader.parse fp (YamlRead.ioError m : YamlRead α) =
        .ok ⟨none, ["Error opening \"" ++ fp ++ "\": " ++ m]⟩) := by
  refine ⟨rfl, rfl, ?_, ?_, rfl⟩
  · intro hmem
    rcases List.mem_append.mp hmem with hm | hm
    · exact absurd hm (by decide)
    · exact join_multiline_no_nl m.toList hm
  · intro p hp
    obtain ⟨u, w, hw⟩ := join_multiline_infix hp
    refine ⟨"Error parsing YAML: ".toList ++ u, w, ?_⟩
    rw [hw]
    simp

/-- Witness for C8: a two-line tab-indentation style message; its second
line, stripped, is an infix of the collapsed diagnostic. -/
theorem c8_witness :
    ("  in \"f.yaml\", line 2, column 3".toList ∈
      splitNl "while scanning\n  in \"f.yaml\", line 2, column 3".toList)
    ∧ (∃ u w, ("Error parsing YAML: ".toList ++
        join_multiline "while scanning\n  in \"f.yaml\", line 2, column 3".toList) =
          u ++ strip2 "  in \"f.yaml\", line 2, column 3".toList ++ w) :=
  ⟨by decide,
   (c8_yaml_collapse Nat "f.yaml" "while scanning\n  in \"f.yaml\", line 2, column 3" 0).2.2.2.1
     "  in \"f.yaml\", line 2, column 3".toList (by decide)⟩

theorem pyOr_some_some (a b : Bool) : pyOr (some a) (some b) = some (a || b) := by
  cases a <;> simp [pyOr]

theorem file_is_valid_some {ext : String} {scope : Option String} {view : Option View}
    {p : String} (hp : p ≠ "") :
    LoaderProto.file_is_valid ext scope view (some p) =
      pyOr (pyOr (some (LoaderProto.get_ext_appendix ext (some p)).isSome)
                 (some (path_to_dict_ext p == "." ++ ext)))
           (scopeSniff scope view) := by
  unfold LoaderProto.file_is_valid
  rw [resolve_some hp]
  exact if_neg hp

theorem plist_file_is_valid_some {fs : String → Option (List String)} {view : Option View}
    {p : String} (hp : p ≠ "") :
    PlistLoader.file_is_valid fs view (some p) =
      if (LoaderProto.get_ext_appendix "plist" (some p)).isSome
          || ((splitextStr p).2 == ".plist") then .ok (some true)
      else
        match view with
        | some v => .ok (some (plistViewDoctype v))
        | none =>
          match fs p with
          | none => .error .ioError
          | some ls => .ok (some (plistFileDoctype ls)) := by
  unfold PlistLoader.file_is_valid
  rw [resolve_some hp]
  exact if_neg hp

theorem pyOr_true_mid (a : Bool) (y : Option Bool) :
    pyOr (pyOr (some a) (some true)) y = some true := by
  cases a <;> simp [pyOr]

/-- C2: with a file path present, `file_is_valid` is accepting exactly when
one of the three prioritized checks holds — appendix found, extension equal to
"." + canonical extension, or (for scope-carrying formats) a buffer whose base
scope equals the scope string; and a plain extension match makes the result
`True` for every buffer state, both for the generic validator and for the
plist override, without consulting buffer or file content. -/
theorem c2_file_is_valid_or (ext : String) (scope : Option String) (view : Option View)
    (p : String) (hp : p ≠ "") :
    (LoaderProto.file_is_valid ext scope view (some p) = some true ↔
       ((LoaderProto.get_ext_appendix ext (some p)).isSome = true
        ∨ path_to_dict_ext p = "." ++ ext
        ∨ ∃ sc v, scope = some sc ∧ view = some v ∧ v.base_scope = sc))
    ∧ (path_to_dict_ext p = "." ++ ext →
        ∀ view2 : Option View, LoaderProto.file_is_valid ext scope view2 (some p) = some true)
    ∧ ((splitextStr p).2 = ".plist" →
        ∀ (fs : String → Option (List String)) (view2 : Option View),
          PlistLoader.file_is_valid fs view2 (some p) = .ok (some true)) := by
  refine ⟨?_, ?_, ?_⟩
  · rw [file_is_valid_some hp]
    rcases scope with _ | sc
    · have hs : scopeSniff none view = some false := rfl
      rw [hs, pyOr_some_some, pyOr_some_some]
      simp [Bool.or_eq_true, beq_iff_eq, or_assoc]
    · rcases view with _ | v
      · simp only [scopeSniff]
        rw [pyOr_some_some]
        by_cases h : ((LoaderProto.get_ext_appendix ext (some p)).isSome
            || (path_to_dict_ext p == "." ++ ext)) = true
        · rw [h]
          simp only [pyOr, if_pos rfl]
          simp only [Bool.or_eq_true, beq_iff_eq] at h
          simp [h]
        · simp only [Bool.not_eq_true] at h
          rw [h]
          simp only [pyOr]
          simp only [Bool.or_eq_false_iff] at h
          constructor
          · intro hfalse
            exact absurd hfalse (by simp)
          · intro hor
            exfalso
            rcases hor with h1 | h1 | ⟨sc2, v2, _, hv, _⟩
            · rw [h1] at h
              simp at h
            · have hb : (path_to_dict_ext p == "." ++ ext) = true := by simp [h1]
              rw [hb] at h
              simp at h
            · exact Option.noConfusion hv
      · simp only [scopeSniff]
        rw [pyOr_some_some, pyOr_some_some]
        simp only [Option.some_inj, Bool.or_eq_true, beq_iff_eq]
        constructor
        · rintro ((h1 | h1) | h1)
          · exact Or.inl h1
          · exact Or.inr (Or.inl h1)
          · exact Or.inr (Or.inr ⟨sc, v, rfl, rfl, h1⟩)
        · rintro (h1 | h1 | ⟨sc2, v2, hsc, hv, h1⟩)
          · exact Or.inl (Or.inl h1)
          · exact Or.inl (Or.inr h1)
          · subst hsc
            subst hv
            exact Or.inr h1
  · intro h view2
    rw [file_is_valid_some hp]
    have hb : (path_to_dict_ext p == "." ++ ext) = true := by simp [h]
    rw [hb, pyOr_true_mid]
  · intro h fs view2
    rw [plist_file_is_valid_some hp]
    have hb : ((splitextStr p).2 == ".plist") = true := by simp [h]
    rw [hb]
    simp

/-- Witness for C2: `a.json` with no buffer validates as JSON through the
extension branch, and `b.plist` validates for the plist override under an
unreadable file system. -/
theorem c2_witness :
    (LoaderProto.file_is_valid "json" (some "source.json") none (some "a.json") = some true)
    ∧ (PlistLoader.file_is_valid (fun _ => none) none (some "b.plist") = .ok (some true)) :=
  ⟨(c2_file_is_valid_or "json" (some "source.json") none "a.json" (by decide)).2.1
     (by decide) none,
   (c2_file_is_valid_or "plist" none none "b.plist" (by decide)).2.2
     (by decide) (fun _ => none) none⟩

theorem get_new_file_ext_some {ext : String} {scope : Option String} {view : Option View}
    {p : String} (hp : p ≠ "") :
    LoaderProto.get_new_file_ext ext scope view (some p) =
      match LoaderProto.get_ext_appendix ext (some p) with
      | some app => (some ("." ++ app), false)
      | none =>
        if ¬((splitextStr p).2 = "." ++ ext)
            ∧ LoaderProto.file_is_valid ext scope view (some p) = some true
        then (some (splitextStr p).2, true)
        else (none, false) := by
  unfold LoaderProto.get_new_file_ext
  rw [resolve_some hp]
  exact if_neg hp

/-- C5: `get_new_file_ext` returns `("." + appendix, False)` when the name
carries an appendix; otherwise `(currentExtension, True)` when the extension
differs from the canonical one and `file_is_valid` accepts the file; otherwise
`(None, False)`, including, without error, when no file path is known.  The
last two conjuncts are the round-trip cases of the claim: appendix `local` for
`json`, and `a.txt` validating as `yaml` through its buffer scope. -/
theorem c5_get_new_file_ext (ext : String) (scope : Option String) (view : Option View)
    (p app : String) (hp : p ≠ "") :
    (LoaderProto.get_ext_appendix ext (some p) = some app →
       LoaderProto.get_new_file_ext ext scope view (some p) = (some ("." ++ app), false))
    ∧ (LoaderProto.get_ext_appendix ext (some p) = none →
       (splitextStr p).2 ≠ "." ++ ext →
       LoaderProto.file_is_valid ext scope view (some p) = some true →
       LoaderProto.get_new_file_ext ext scope view (some p) = (some (splitextStr p).2, true))
    ∧ (LoaderProto.get_ext_appendix ext (some p) = none →
       ((splitextStr p).2 = "." ++ ext
         ∨ LoaderProto.file_is_valid ext scope view (some p) ≠ some true) →
       LoaderProto.get_new_file_ext ext scope view (some p) = (none, false))
    ∧ (LoaderProto.get_new_file_ext ext scope none none = (none, false))
    ∧ (∀ v : View, v.file_name = none →
        LoaderProto.get_new_file_ext ext scope (some v) none = (none, false))
    ∧ (LoaderProto.get_new_file_ext "json" (some "source.json") none
        (some "/x/config.json-local") = (some ".local", false))
    ∧ (LoaderProto.get_new_file_ext "yaml" (some "source.yaml")
        (some ⟨none, "source.yaml", []⟩) (some "a.txt") = (some ".txt", true)) := by
  refine ⟨?_, ?_, ?_, rfl, ?_, by decide, by decide⟩
  · intro h
    rw [get_new_file_ext_some hp, h]
  · intro h1 h2 h3
    rw [get_new_file_ext_some hp, h1]
    exact if_pos ⟨h2, h3⟩
  · intro h1 h2
    rw [get_new_file_ext_some hp, h1]
    rcases h2 with h2 | h2
    · exact if_neg (fun hc => hc.1 h2)
    · exact if_neg (fun hc => h2 hc.2)
  · intro v hv
    unfold LoaderProto.get_new_file_ext
    have hr : resolvePath none (some v) = none := by
      simp [resolvePath, pyTruthyOpt, hv]
    rw [hr]

/-- Witness for C5: the appendix case at `json` on `/x/config.json-local`. -/
theorem c5_witness :
    (LoaderProto.get_ext_appendix "json" (some "/x/config.json-local") = some "local")
    ∧ (LoaderProto.get_new_file_ext "json" (some "source.json") none
        (some "/x/config.json-local") = (some ".local", false)) :=
  ⟨by decide,
   (c5_get_new_file_ext "json" (some "source.json") none "/x/config.json-local" "local"
      (by decide)).1 (by decide)⟩

/-- C3, amended: `file_is_valid` is `None` whenever no non-empty file path can
be resolved — also when a buffer is available but carries no file path — and,
for scope-based loaders, additionally when a file path is present but no
buffer is, once appendix and extension checks fail; only with both a file path
and a buffer available is the result always a determined boolean: `False` on a
scope mismatch (JSON/YAML) and `False` for the plist loader when no DOCTYPE is
recognized in the buffer. -/
theorem c3_amended_none_cases (ext sc p : String) (v : View) (scope : Option String)
    (fs : String → Option (List String))
    (hp : p ≠ "") (hv : v.file_name = none)
    (h1 : (LoaderProto.get_ext_appendix ext (some p)).isSome = false)
    (h2 : path_to_dict_ext p ≠ "." ++ ext)
    (h3 : v.base_scope ≠ sc)
    (hp1 : (LoaderProto.get_ext_appendix "plist" (some p)).isSome = false)
    (hp2 : (splitextStr p).2 ≠ ".plist")
    (hpl : plistViewDoctype v = false) :
    (∀ scope2 : Option String, LoaderProto.file_is_valid ext scope2 (some v) none = none)
    ∧ (LoaderProto.file_is_valid ext (some sc) none (some p) = none)
    ∧ (∃ b, LoaderProto.file_is_valid ext scope (some v) (some p) = some b)
    ∧ (LoaderProto.file_is_valid ext (some sc) (some v) (some p) = some false)
    ∧ (PlistLoader.file_is_valid fs (some v) (some p) = .ok (some false)) := by
  have hb : (path_to_dict_ext p == "." ++ ext) = false := by
    simp [h2]
  refine ⟨?_, ?_, ?_, ?_, ?_⟩
  · intro scope2
    unfold LoaderProto.file_is_valid
    have hr : resolvePath none (some v) = none := by
      simp [resolvePath, pyTruthyOpt, hv]
    rw [hr]
  · rw [file_is_valid_some hp]
    have hs : scopeSniff (some sc) none = none := rfl
    rw [hs, h1, hb]
    rfl
  · rw [file_is_valid_some hp]
    rcases scope with _ | s
    · have hs : scopeSniff none (some v) = some false := rfl
      rw [hs, pyOr_some_some, pyOr_some_some]
      exact ⟨_, rfl⟩
    · have hs : scopeSniff (some s) (some v) = some (v.base_scope == s) := rfl
      rw [hs, pyOr_some_some, pyOr_some_some]
      exact ⟨_, rfl⟩
  · rw [file_is_valid_some hp]
    have hs : scopeSniff (some sc) (some v) = some (v.base_scope == sc) := rfl
    have hb3 : (v.base_scope == sc) = false := by
      simp [h3]
    rw [hs, h1, hb, hb3, pyOr_some_some, pyOr_some_some]
    rfl
  · rw [plist_file_is_valid_some hp]
    have hbp : ((splitextStr p).2 == ".plist") = false := by
      simp [hp2]
    rw [hp1, hbp]
    simp [hpl]

/-- Witness for C3 (amended) at JSON, path `a.txt`, and a Python buffer whose
scope mismatches. -/
theorem c3_amended_witness :
    (∀ scope2 : Option String, LoaderProto.file_is_valid "json" scope2
        (some ⟨none, "source.python", ["hello"]⟩) none = none)
    ∧ (LoaderProto.file_is_valid "json" (some "source.json") none (some "a.txt") = none)
    ∧ (∃ b, LoaderProto.file_is_valid "json" (some "source.json")
        (some ⟨none, "source.python", ["hello"]⟩) (some "a.txt") = some b)
    ∧ (LoaderProto.file_is_valid "json" (some "source.json")
        (some ⟨none, "source.python", ["hello"]⟩) (some "a.txt") = some false)
    ∧ (PlistLoader.file_is_valid (fun _ => none)
        (some ⟨none, "source.python", ["hello"]⟩) (some "a.txt") = .ok (some false)) :=
  c3_amended_none_cases "json" "source.json" "a.txt" ⟨none, "source.python", ["hello"]⟩
    (some "source.json") (fun _ => none) (by decide) rfl (by decide) (by decide)
    (by decide) (by decide) (by decide) rfl

/-- C10: construction is the only guard — when neither the explicit argument
nor the view supplies a file name, `__init__` raises (`AttributeError` from
`view.window()`, `view.file_name()` or `os.path.split(None)`) and no instance
exists, so unsaved buffers never reach `is_valid` or `load`; and every
successfully constructed instance carries a non-empty `file_path` together
with the view it was built from.  The hypothesis `hwf` is the documented
Sublime API contract that `view.file_name()` is `None` or a real (non-empty)
path. -/
theorem c10_init_guard (window : Option Window) (view : Option View) (fp0 : Option String)
    (hwf : ∀ v, view = some v → v.file_name ≠ some "") :
    ((¬ pyTruthyOpt fp0 = true
        ∧ ∀ v, view = some v → ¬ pyTruthyOpt v.file_name = true) →
       excIsError (LoaderProto.init window view fp0) = true)
    ∧ (∀ inst, LoaderProto.init window view fp0 = .ok inst →
        inst.file_path ≠ "" ∧ inst.view = view) := by
  constructor
  · rintro ⟨hf, hv⟩
    unfold LoaderProto.init
    by_cases hw : (window.isNone && view.isNone) = true
    · rw [if_pos hw]
      rfl
    · rw [if_neg hw]
      have hri : resolveInitPath view fp0 = .ok none
          ∨ resolveInitPath view fp0 = .error .attributeError := by
        rcases view with _ | v
        · right
          unfold resolveInitPath
          rw [if_neg hf]
        · left
          unfold resolveInitPath
          rw [if_neg hf]
          show Except.ok v.file_name = Except.ok (none : Option String)
          cases hfn : v.file_name with
          | none => rfl
          | some s =>
            exfalso
            have hs := hv v rfl
            rw [hfn] at hs
            simp [pyTruthyOpt] at hs
            subst hs
            exact hwf v rfl hfn
      rcases hri with hri | hri <;> rw [hri] <;> rfl
  · intro inst h
    unfold LoaderProto.init at h
    split at h
    · exact absurd h (by simp)
    · split at h
      · exact absurd h (by simp)
      · exact absurd h (by simp)
      · rename_i p hres
        injection h with h
        subst h
        refine ⟨?_, rfl⟩
        unfold resolveInitPath at hres
        split at hres
        · rename_i htr
          injection hres with hres
          rw [hres] at htr
          simp [pyTruthyOpt] at htr
          exact htr
        · split at hres
          · exact absurd hres (by simp)
          · rename_i v2 heq
            injection hres with hres
            intro hcon
            have hc2 : p = "" := hcon
            exact hwf v2 rfl (by rw [hres, hc2])

/-- Witness for C10: no explicit path, no view — construction raises. -/
theorem c10_witness :
    (excIsError (LoaderProto.init (some Window.mk) none none) = true)
    ∧ (∀ inst, LoaderProto.init (some Window.mk) none none = .ok inst →
        inst.file_path ≠ "" ∧ inst.view = none) :=
  ⟨(c10_init_guard (some Window.mk) none none (by intro v hv; cases hv)).1
     ⟨by decide, by intro v hv; cases hv⟩,
   (c10_init_guard (some Window.mk) none none (by intro v hv; cases hv)).2⟩
